import Mathlib

/-!
Verification development for the MEDOCR confidence-driven OCR extraction
engine (`MEDOCR/ocr-worker/main.py`).

The Python source is shallowly embedded:
* pure text manipulation (the Text Normalizer: medical-term substitution,
  CPT homoglyph repair, date validation) is translated to executable
  functions over `List Char`, including the exact regular-expression
  scanning behaviour of the source (left-to-right non-overlapping
  `finditer`, greedy bounded quantifiers with backtracking, word
  boundaries, `str.replace` global replacement);
* the external OCR engine (pytesseract), the OpenCV image transforms and
  the `difflib` fuzzy matcher are hard boundaries; they are modelled as
  fields of an environment record `OcrEnv`, i.e. as pinned oracles, while
  every piece of control flow around them (configuration-matrix
  enumeration, best-attempt selection, region detection and filtering,
  the preprocessing step list, variant escalation, page assembly, CLI
  exit codes) is embedded concretely;
* Python floats are rendered as `ℚ`; the source's numeric literals
  (0.3, 0.5, 0.6, 0.8, 20) become exact rationals;
* `datetime.now().year`, read by the date corrector, is the
  `currentYear` field of the environment, so that dependence on the
  wall clock is visible in the model.
-/

namespace MedOCR

/-! ## Basic character and string helpers (Python semantics) -/

/-- Whitespace characters stripped by Python `str.strip()` / matched by `\s`. -/
def pySpace (c : Char) : Bool :=
  c = ' ' || c = '\t' || c = '\n' || c = '\r' || c = '\x0b' || c = '\x0c'

/-- Word characters for the regex `\b` boundary (`\w` over ASCII). -/
def isWordChar (c : Char) : Bool := c.isAlpha || c.isDigit || c = '_'

/-- Python `str.lower()` on ASCII text. -/
def lowerStr (l : List Char) : List Char := l.map Char.toLower

/-- Python `str.strip()`. -/
def trimL (l : List Char) : List Char :=
  ((l.dropWhile pySpace).reverse.dropWhile pySpace).reverse

/-- Check that the first list is a prefix of the second. -/
def listIsPre : List Char → List Char → Bool
  | [], _ => true
  | _ :: _, [] => false
  | a :: as, b :: bs => a = b && listIsPre as bs

/-- Python substring containment `needle in haystack`. -/
def containsSub (needle : List Char) : List Char → Bool
  | [] => listIsPre needle []
  | c :: rest => listIsPre needle (c :: rest) || containsSub needle rest

/-- One scanning pass of Python `str.replace` (all non-overlapping
occurrences, left to right); the fuel is the haystack length. -/
def replaceAllAux (needle repl : List Char) : Nat → List Char → List Char
  | 0, l => l
  | _ + 1, [] => []
  | fuel + 1, c :: rest =>
    if listIsPre needle (c :: rest) then
      repl ++ replaceAllAux needle repl fuel (List.drop (needle.length - 1) rest)
    else
      c :: replaceAllAux needle repl fuel rest

/-- Python `str.replace needle repl` (needles used by the source are
never empty; an empty needle leaves the text unchanged here). -/
def replaceAll (needle repl l : List Char) : List Char :=
  if needle = [] then l else replaceAllAux needle repl l.length l

/-- Case-insensitive prefix test against an (already lowercase) needle. -/
def listIsPreCI (needle cand : List Char) : Bool :=
  listIsPre needle (lowerStr (cand.take needle.length)) &&
    needle.length ≤ cand.length

/-- One pass of `re.sub` with a case-insensitive literal pattern
(`re.compile(re.escape(wrong), re.IGNORECASE).sub(correct, text)`):
scan left to right, emit the replacement for each non-overlapping match,
do not rescan emitted replacements. -/
def replaceCIAux (needle repl : List Char) : Nat → List Char → List Char
  | 0, l => l
  | _ + 1, [] => []
  | fuel + 1, c :: rest =>
    if listIsPreCI needle (c :: rest) then
      repl ++ replaceCIAux needle repl fuel (List.drop (needle.length - 1) rest)
    else
      c :: replaceCIAux needle repl fuel rest

/-- Case-insensitive literal `re.sub` over the whole text. -/
def replaceCI (needle repl l : List Char) : List Char :=
  if needle = [] then l else replaceCIAux needle repl l.length l

/-- Python `str.split()` body: the text has been stripped of leading
whitespace; split the rest on whitespace runs. -/
def splitWsAux : Nat → List Char → List (List Char)
  | 0, _ => []
  | _ + 1, [] => []
  | fuel + 1, l =>
    let w := l.takeWhile (fun c => !pySpace c)
    let rest := (l.dropWhile (fun c => !pySpace c)).dropWhile pySpace
    w :: splitWsAux fuel rest

/-- Python `str.split()` with no separator argument. -/
def splitWs (l : List Char) : List (List Char) :=
  splitWsAux l.length (l.dropWhile pySpace)

/-- Join the words with single spaces (the Python space join). -/
def joinSpace (ws : List (List Char)) : List Char := List.intercalate [' '] ws

/-- Join the lines with newline characters (the Python newline join). -/
def joinNl (ws : List (List Char)) : List Char := List.intercalate ['\n'] ws

/-- Digit-string to number, `int(s)` on a digit-only string. -/
def digitsToNat (l : List Char) : Nat :=
  l.foldl (fun a c => 10 * a + (c.toNat - 48)) 0

/-! ## `_correct_cpt_code`: CPT homoglyph repair -/

/-- The fixed homoglyph table of `_correct_cpt_code`: O and o map to 0,
I, l and i map to 1, S and s map to 5, B maps to 8, G maps to 6. -/
def corrChar (c : Char) : Char :=
  if c = 'O' || c = 'o' then '0'
  else if c = 'I' || c = 'l' || c = 'i' then '1'
  else if c = 'S' || c = 's' then '5'
  else if c = 'B' then '8'
  else if c = 'G' then '6'
  else c

/-- Membership in the regex character class `[0-9OolISBG]`. -/
def glyphChar (c : Char) : Bool :=
  c.isDigit || c = 'O' || c = 'o' || c = 'l' || c = 'I' || c = 'S' ||
    c = 'B' || c = 'G'

/-- The `clean_token` helper: `$`→`5`, drop commas, drop whitespace,
then map the homoglyph table over the characters. -/
def cleanToken (tok : List Char) : List Char :=
  let t := replaceAll ['$'] ['5'] tok
  let t := replaceAll [','] [] t
  let t := t.filter (fun c => !pySpace c)
  t.map corrChar

/-- The six CPT token patterns, in source order. -/
inductive CptPat
  | dollarH   -- `\$[0-9OolISBG]{4,5}`
  | dollarD   -- `\$\d{4,5}`
  | bndH5     -- `\b[0-9OolISBG]{5}\b`
  | bndD5     -- `\b\d{5}\b`
  | bndH4     -- `\b[0-9OolISBG]{4}\b`
  | bndD4     -- `\b\d{4}\b`
deriving DecidableEq

/-- A `\b` word boundary holds before position `i` of `t` when `i = 0`
or the previous character is not a word character (all pattern
characters at `i` are word characters). -/
def boundaryBefore (t : List Char) (i : Nat) : Bool :=
  i = 0 || !(isWordChar (t.getD (i - 1) ' '))

/-- A `\b` word boundary holds after position `j` when `j` is the end of
the text or the character at `j` is not a word character. -/
def boundaryAfter (t : List Char) (j : Nat) : Bool :=
  t.length ≤ j || !(isWordChar (t.getD j ' '))

/-- Length of the match of one CPT pattern at position `i` of `t`
(`None` if the pattern does not match there); quantifier `{4,5}` is
greedy, `{n}` is exact with surrounding `\b`. -/
def cptMatchAt (t : List Char) (i : Nat) : CptPat → Option Nat
  | .dollarH =>
    match t.drop i with
    | '$' :: rest =>
      let r := (rest.takeWhile glyphChar).length
      if 5 ≤ r then some 6 else if 4 ≤ r then some 5 else none
    | _ => none
  | .dollarD =>
    match t.drop i with
    | '$' :: rest =>
      let r := (rest.takeWhile Char.isDigit).length
      if 5 ≤ r then some 6 else if 4 ≤ r then some 5 else none
    | _ => none
  | .bndH5 =>
    let w := (t.drop i).take 5
    if boundaryBefore t i && w.length = 5 && w.all glyphChar &&
        boundaryAfter t (i + 5) then some 5 else none
  | .bndD5 =>
    let w := (t.drop i).take 5
    if boundaryBefore t i && w.length = 5 && w.all Char.isDigit &&
        boundaryAfter t (i + 5) then some 5 else none
  | .bndH4 =>
    let w := (t.drop i).take 4
    if boundaryBefore t i && w.length = 4 && w.all glyphChar &&
        boundaryAfter t (i + 4) then some 4 else none
  | .bndD4 =>
    let w := (t.drop i).take 4
    if boundaryBefore t i && w.length = 4 && w.all Char.isDigit &&
        boundaryAfter t (i + 4) then some 4 else none

/-- `re.finditer` scanning: try the pattern at each position from left
to right, resume after the end of each (necessarily non-empty) match. -/
def finditerAux (t : List Char) (p : CptPat) : Nat → Nat → List (Nat × Nat)
  | 0, _ => []
  | fuel + 1, i =>
    if t.length ≤ i then []
    else
      match cptMatchAt t i p with
      | some len => (i, i + len) :: finditerAux t p fuel (i + len)
      | none => finditerAux t p fuel (i + 1)

/-- All matches of one pattern over `t`, as (start, end) spans. -/
def finditer (t : List Char) (p : CptPat) : List (Nat × Nat) :=
  finditerAux t p (t.length + 1) 0

/-- Slice `t[s:e]`. -/
def slice (t : List Char) (s e : Nat) : List Char := (t.drop s).take (e - s)

/-- Stable insertion of a span into a list sorted by (start, end);
together with the per-pattern scan order this reproduces the Python
`all_matches.sort()` (ties beyond (start, end) carry equal token text,
so their relative order cannot influence the result). -/
def insSpan (x : Nat × Nat) : List (Nat × Nat) → List (Nat × Nat)
  | [] => [x]
  | y :: ys =>
    if y.1 < x.1 || (y.1 = x.1 && y.2 ≤ x.2) then y :: insSpan x ys
    else x :: y :: ys

/-- Stable sort by (start, end). -/
def sortSpans (l : List (Nat × Nat)) : List (Nat × Nat) :=
  l.foldr insSpan []

/-- All matches of all six patterns, sorted as by `all_matches.sort()`. -/
def allMatches (t : List Char) : List (Nat × Nat) :=
  sortSpans ((finditer t .dollarH) ++ (finditer t .dollarD) ++
    (finditer t .bndH5) ++ (finditer t .bndD5) ++
    (finditer t .bndH4) ++ (finditer t .bndD4))

/-- Overlap test of the source: `not (end <= prev_start or start >= prev_end)`. -/
def spansOverlap (a b : Nat × Nat) : Bool :=
  !(a.2 ≤ b.1 || b.2 ≤ a.1)

/-- Drop matches overlapping an earlier selected match. -/
def nonOverlapping (l : List (Nat × Nat)) : List (Nat × Nat) :=
  l.foldl (fun acc x =>
    if acc.any (fun p => spansOverlap x p) then acc else acc ++ [x]) []

/-- The five-digit search of the token processor: the first run of
five consecutive digits anywhere in the cleaned token. -/
def search5 : List Char → Option (List Char)
  | [] => none
  | c :: rest =>
    let w := (c :: rest).take 5
    if w.length = 5 && w.all Char.isDigit then some w else search5 rest

/-- The exact four-digit test on the cleaned token. -/
def is4Digits (l : List Char) : Bool := l.length = 4 && l.all Char.isDigit

/-- Processing of one selected token: five-digit codes are substituted
as cleaned; otherwise, in CPT-label context, cleaned four-digit codes
are zero-padded to five digits; `str.replace` rewrites every occurrence
of the token string in the current text. -/
def cptStep (hasLabel : Bool) (tok cur : List Char) : List Char :=
  let cleaned := cleanToken tok
  match search5 cleaned with
  | some code => replaceAll tok code cur
  | none =>
    if hasLabel && is4Digits cleaned then
      replaceAll tok ('0' :: cleaned) cur
    else cur

/-- The final pass `re.sub(r"[0-9OolISBG]{5}", finalize_match, text)`:
map the homoglyph table over every five-character class run, scanning
left to right and resuming after each match. -/
def cptFinalAux : Nat → List Char → List Char
  | 0, _ => []
  | _ + 1, [] => []
  | fuel + 1, c :: rest =>
    let w := (c :: rest).take 5
    if w.length = 5 && w.all glyphChar then
      w.map corrChar ++ cptFinalAux fuel ((c :: rest).drop 5)
    else
      c :: cptFinalAux fuel rest

/-- The final homoglyph pass over the whole text. -/
def cptFinal (t : List Char) : List Char := cptFinalAux t.length t

/-- `_correct_cpt_code`: collect the non-overlapping token matches of
the original text, determine label context from the original text, fold
the per-token replacement over the text, then run the final pass. -/
def correctCptCode (t : List Char) : List Char :=
  let sel := nonOverlapping (allMatches t)
  let lower := lowerStr t
  let hasLabel := containsSub ("cpt".data) lower ||
    containsSub ("procedure".data) lower
  let t2 := sel.foldl (fun cur sp => cptStep hasLabel (slice t sp.1 sp.2) cur) t
  cptFinal t2

/-! ## `_correct_date`: date validation and correction -/

/-- Take exactly `n` digits from the front of `l`, returning them and
the remainder. -/
def takeDigits (n : Nat) (l : List Char) : Option (List Char × List Char) :=
  let w := l.take n
  if w.length = n && w.all Char.isDigit then some (w, l.drop n) else none

/-- Take one separator character (slash or hyphen). -/
def takeSep : List Char → Option (List Char)
  | c :: rest => if c = '/' || c = '-' then some rest else none
  | [] => none

/-- Try the date pattern at the current position with fixed quantifier
lengths for month, day and year. -/
def dateTry (ml dl yl : Nat) (l : List Char) :
    Option (List Char × List Char × List Char) := do
  let (m, r1) ← takeDigits ml l
  let r2 ← takeSep r1
  let (d, r3) ← takeDigits dl r2
  let r4 ← takeSep r3
  let (y, _) ← takeDigits yl r4
  pure (m, d, y)

/-- Match the date pattern (one or two digits, separator, one or two
digits, separator, two to four digits) at the current position:
greedy quantifiers with backtracking try the longer lengths first. -/
def dateMatchAt (l : List Char) : Option (List Char × List Char × List Char) :=
  dateTry 2 2 4 l <|> dateTry 2 2 3 l <|> dateTry 2 2 2 l <|>
  dateTry 2 1 4 l <|> dateTry 2 1 3 l <|> dateTry 2 1 2 l <|>
  dateTry 1 2 4 l <|> dateTry 1 2 3 l <|> dateTry 1 2 2 l <|>
  dateTry 1 1 4 l <|> dateTry 1 1 3 l <|> dateTry 1 1 2 l

/-- `re.search` for the date pattern: leftmost match wins. -/
def dateSearchAux : Nat → List Char → Option (List Char × List Char × List Char)
  | 0, _ => none
  | fuel + 1, l =>
    match dateMatchAt l with
    | some g => some g
    | none =>
      match l with
      | [] => none
      | _ :: rest => dateSearchAux fuel rest

/-- First match of the date pattern anywhere in the text. -/
def dateSearch (t : List Char) : Option (List Char × List Char × List Char) :=
  dateSearchAux (t.length + 1) t

/-- Two-digit year expansion of `_correct_date`: prepend `20` when the
value is at most `current_year % 100`, else `19`; longer year strings
are kept as matched. -/
def expandYear (y : List Char) (currentYear : Nat) : List Char :=
  if y.length = 2 then
    if digitsToNat y ≤ currentYear % 100 then '2' :: '0' :: y else '1' :: '9' :: y
  else y

/-- Range validation of `_correct_date`: month 1–12, day 1–31,
year 1900–2030. -/
def dateValid (m d y : Nat) : Bool :=
  1 ≤ m && m ≤ 12 && 1 ≤ d && d ≤ 31 && 1900 ≤ y && y ≤ 2030

/-- Left-pad to two characters with `0` (the `f"{s:0>2}"` format). -/
def pad2 (s : List Char) : List Char := if s.length < 2 then '0' :: s else s

/-- `_correct_date`: search for a date pattern; expand a two-digit year
against the pivot `currentYear`; if the resulting month/day/year pass
range validation return the reformatted date, otherwise return the text
unchanged. -/
def correctDate (t : List Char) (currentYear : Nat) : List Char :=
  match dateSearch t with
  | none => t
  | some (m, d, y) =>
    let y' := expandYear y currentYear
    if dateValid (digitsToNat m) (digitsToNat d) (digitsToNat y') then
      pad2 m ++ '/' :: pad2 d ++ '/' :: y'
    else t

/-! ## Medical-term corrections and `_correct_insurance_name` -/

/-- The `medical_corrections` dictionary, in insertion order. -/
def medicalCorrections : List (String × String) :=
  [("patieni", "patient"), ("patlent", "patient"), ("palent", "patient"),
   ("dlagnosis", "diagnosis"), ("diagnosls", "diagnosis"), ("dagnosis", "diagnosis"),
   ("medicai", "medical"), ("medlcal", "medical"), ("medcal", "medical"),
   ("hospltal", "hospital"), ("hospita1", "hospital"), ("hospilal", "hospital"),
   ("doctoi", "doctor"), ("docto1", "doctor"), ("dactor", "doctor"),
   ("treatmeni", "treatment"), ("treatmenl", "treatment"), ("treaiment", "treatment"),
   ("prescriptlon", "prescription"), ("prescriplion", "prescription"),
   ("insuranci", "insurance"), ("lnsurance", "insurance"), ("insuranc3", "insurance"),
   ("symptons", "symptoms"), ("symptorns", "symptoms"), ("symploms", "symptoms")]

/-- Apply every medical-term correction as a case-insensitive literal
substitution, in dictionary order. -/
def applyMedical (t : List Char) : List Char :=
  medicalCorrections.foldl (fun acc p => replaceCI p.1.data p.2.data acc) t

/-- `_correct_insurance_name` with the `difflib.get_close_matches`
oracle abstracted as `closeMatch`: split on whitespace, replace each
word by its close carrier match when one exists, join with single
spaces. -/
def correctInsuranceName (closeMatch : List Char → Option (List Char))
    (t : List Char) : List Char :=
  joinSpace ((splitWs t).map (fun w => (closeMatch w).getD w))

/-- The date-branch trigger of `validate_and_correct_text`: the region
name equals the date literal, or is non-empty and contains it after
lowercasing. -/
def dateCond (region : Option (List Char)) : Bool :=
  match region with
  | none => false
  | some r => r = "date".data || (r ≠ [] && containsSub "date".data (lowerStr r))

/-- The CPT-branch trigger: region name mentions cpt/procedure, or the
(already corrected) text itself does. -/
def cptCond (region : Option (List Char)) (corrected : List Char) : Bool :=
  (match region with
   | none => false
   | some r => r ≠ [] && (containsSub "cpt".data (lowerStr r) ||
       containsSub "procedure".data (lowerStr r))) ||
  containsSub "cpt".data (lowerStr corrected) ||
  containsSub "procedure".data (lowerStr corrected)

/-- `validate_and_correct_text`: medical-term substitutions, then the
insurance, date and CPT passes under their respective triggers. -/
def validateAndCorrectText (closeMatch : List Char → Option (List Char))
    (currentYear : Nat) (t : List Char) (region : Option (List Char)) :
    List Char :=
  if t = [] then t
  else
    let c1 := applyMedical t
    let c2 := if region = some "insurance".data then
        correctInsuranceName closeMatch c1 else c1
    let c3 := if dateCond region then correctDate c2 currentYear else c2
    if cptCond region c3 then correctCptCode c3 else c3

/-! ## Tesseract configuration matrix (`_tesseract_ocr_region` setup) -/

/-- One engine configuration: the parameters assembled into the
config string (oem, psm, and the `-c` options) of one `image_to_data` invocation. -/
structure TessCfg where
  oem : Nat
  psm : Nat
  preserveSpaces : Bool
  numericMode : Bool
  blacklistOn : Bool
  whitelist : Option String
deriving DecidableEq

/-- `_get_optimal_psm`: 7 for the single-line region kinds, 6 otherwise. -/
def psmFor (name : String) : Nat :=
  if name = "patient_name" || name = "insurance" || name = "procedure" then 7
  else 6

/-- `_get_character_whitelist`: the whitelist table with default `''`. -/
def whitelistFor (name : String) : String :=
  if name = "patient_name" then
    "ABCDEFGHIJKLMNOPQRSTUVWXYZabcdefghijklmnopqrstuvwxyz .,"
  else if name = "insurance" then
    "ABCDEFGHIJKLMNOPQRSTUVWXYZabcdefghijklmnopqrstuvwxyz0123456789 .,"
  else if name = "procedure" then
    "0123456789ABCDEFGHIJKLMNOPQRSTUVWXYZabcdefghijklmnopqrstuvwxyz -"
  else if name = "date" then "0123456789/"
  else if name = "mrn" then "0123456789ABCDEFGHIJKLMNOPQRSTUVWXYZ"
  else if name = "cpt" then "0123456789ABCDEFGHIJKLMNOPQRSTUVWXYZ"
  else if name = "phone" then "0123456789()-. "
  else if name = "fax" then "0123456789()-. "
  else ""

/-- The ordered configuration matrix attempted by
`_tesseract_ocr_region` for a region name: region-aware PSM lists,
region-specific whitelists, numeric mode and the strict-first attempt
pair for procedure/CPT regions, flattened in the source's loop order
(attempt, then OEM in [1, 3], then PSM). -/
def configsFor (name : String) (quality : Bool) : List TessCfg :=
  let psmd := psmFor name
  let rn := lowerStr name.data
  let psms0 := if rn = "full_document".data then
      (if quality then [6, 4, 11, 13] else [psmd, 6, 3])
    else [psmd, 6, 3, 11, 12, 13]
  let wl := whitelistFor name
  let isProc := containsSub "procedure".data rn || containsSub "cpt".data rn
  -- the region-aware branch chain: attempts (psm list and whitelist per
  -- attempt) together with the numeric-mode flag set by that branch
  let branch : List (List Nat × String) × Bool :=
    if isProc then
      ([(if quality then [7, 8, 6, 13] else [7, 8, psmd, 6, 3], "0123456789"),
        ([psmd, 6, 3], wl)], true)
    else if containsSub "patient_name".data rn then
      ([([7, 6, 13],
         "ABCDEFGHIJKLMNOPQRSTUVWXYZabcdefghijklmnopqrstuvwxyz .,â€“-")], false)
    else if containsSub "insurance".data rn then
      ([([7, 6, 13],
         "ABCDEFGHIJKLMNOPQRSTUVWXYZabcdefghijklmnopqrstuvwxyz0123456789 .,-&")],
       false)
    else if containsSub "phone".data rn || containsSub "fax".data rn then
      ([([7, 6, 13], "0123456789()-. ")], true)
    else ([(psms0, wl)], false)
  let numeric := branch.2
  let bl := numeric && isProc   -- blacklist flag of the numeric procedure path
  branch.1.flatMap (fun a =>
    [1, 3].flatMap (fun oem =>
      a.1.map (fun psm =>
        ⟨oem, psm, quality, numeric, bl,
          if a.2 = "" then none else some a.2⟩)))

/-! ## One transcription attempt (`image_to_data` post-processing) -/

/-- One word row of the `image_to_data` dictionary output: its text,
its confidence (`none` for a non-numeric `conf` entry) and its
block/line indexes. -/
structure WordData where
  txt : List Char
  conf : Option ℚ
  blk : Nat
  lin : Nat
deriving DecidableEq

/-- Confidence normalization: unparseable entries and negative values
count as 0. -/
def wordConf (c : Option ℚ) : ℚ :=
  match c with
  | none => 0
  | some v => if v < 0 then 0 else v

/-- Words that survive the `word.strip()` emptiness filter, paired with
their block/line keys. -/
def keptWords (ws : List WordData) : List (List Char × Nat × Nat) :=
  ws.filterMap (fun w =>
    if trimL w.txt ≠ [] then some (trimL w.txt, w.blk, w.lin) else none)

/-- Group consecutive words with equal (block, line) keys into
space-joined lines (the text-reconstruction loop of the source). -/
def groupLinesAux (key : Nat × Nat) (cur : List (List Char)) :
    List (List Char × Nat × Nat) → List (List Char)
  | [] => [joinSpace cur.reverse]
  | (w, k) :: rest =>
    if k = key then groupLinesAux key (w :: cur) rest
    else joinSpace cur.reverse :: groupLinesAux k [w] rest

/-- Reconstructed lines of one attempt. -/
def groupLines : List (List Char × Nat × Nat) → List (List Char)
  | [] => []
  | (w, k) :: rest => groupLinesAux k [w] rest

/-- The attempt's reconstructed text: lines joined by newlines, then
stripped. -/
def attemptText (ws : List WordData) : List Char :=
  trimL (joinNl (groupLines (keptWords ws)))

/-- Arithmetic mean of a confidence list, 0 when empty. -/
def meanConf (confs : List ℚ) : ℚ :=
  if confs = [] then 0 else confs.sum / confs.length

/-- The attempt's average confidence over its kept words. -/
def attemptAvg (ws : List WordData) : ℚ :=
  meanConf ((ws.filter (fun w => trimL w.txt ≠ [])).map (fun w => wordConf w.conf))

/-! ## The environment of pinned external oracles -/

/-- Bounding box (x, y, width, height). -/
abbrev Box : Type := Nat × Nat × Nat × Nat

/-- The external world of the OCR worker, pinned: the OpenCV image
transforms materialised in `advanced_preprocess`,
`_generate_preprocess_variants`, `detect_form_regions` and
`deskew_image`; the pytesseract engine calls; the `difflib`
close-match oracle of `_correct_insurance_name`; and the wall-clock
year read by `_correct_date`. Every field is a fixed function, so one
`OcrEnv` value represents one pinned behaviour of the outside world. -/
structure OcrEnv (Img : Type) where
  isColor : Img → Bool
  toGray : Img → Img
  clahe : Img → Img
  denoise : Img → Img
  detectAngle : Img → Option ℚ
  rotate : Img → ℚ → Img
  adaptiveThresh : Img → Img
  morphology : Img → Img
  upscale : Img → Img
  unsharp : Img → Img
  bilateralMean : Img → Img
  gaussOtsu : Img → Img
  invert : Img → Img
  normOtsu : Img → Img
  aggressiveDenoise : Img → Img
  shape : Img → Nat × Nat
  crop : Img → Box → Img
  contours : Img → List Box
  probe : Img → List Char
  runConfig : Img → TessCfg → Option (List WordData)
  imageToString : Img → Option (List Char)
  closeMatch : List Char → Option (List Char)
  currentYear : Nat
  quality : Bool

/-! ## `_tesseract_ocr_region`: multi-configuration search -/

/-- A region transcription result (`RegionResult` dataclass). -/
structure RegionResult where
  region_name : String
  bbox : Box
  text : List Char
  confidence : ℚ
  psm_used : Option Nat
deriving DecidableEq

/-- State of the best-attempt scan: best text, best confidence, best
PSM (initially `""`, -1, the default PSM). -/
structure SelState where
  text : List Char
  conf : ℚ
  psm : Nat
deriving DecidableEq

/-- One step of the best-attempt scan: replace the state when the
attempt has strictly higher average confidence, or equal confidence and
strictly longer text. -/
def selStep (s : SelState) (a : List Char × ℚ × Nat) : SelState :=
  if a.2.1 > s.conf ∨ (a.2.1 = s.conf ∧ a.1.length > s.text.length) then
    ⟨a.1, a.2.1, a.2.2⟩
  else s

/-- The successful transcription attempts for a region, in
configuration order: text, average confidence and the PSM used.
Configurations on which the engine raises are skipped. -/
def tessAttempts {Img : Type} (e : OcrEnv Img) (img : Img) (name : String) :
    List (List Char × ℚ × Nat) :=
  (configsFor name e.quality).filterMap (fun cfg =>
    (e.runConfig img cfg).map (fun ws => (attemptText ws, attemptAvg ws, cfg.psm)))

/-- Scan of all attempts from the initial state. -/
def selectBest (psmd : Nat) (atts : List (List Char × ℚ × Nat)) : SelState :=
  atts.foldl selStep ⟨[], -1, psmd⟩

/-- `_tesseract_ocr_region` on an already cropped region image: run the
configuration matrix, keep the best attempt; if no attempt achieved
positive confidence, fall back to a plain `image_to_string` invocation
returned with confidence 0 (empty text when even that raises). -/
def tessOcrRegion {Img : Type} (e : OcrEnv Img) (img : Img) (name : String)
    (bbox : Box) : RegionResult :=
  let psmd := psmFor name
  let b := selectBest psmd (tessAttempts e img name)
  if b.conf ≤ 0 then
    match e.imageToString img with
    | some raw => ⟨name, bbox, trimL raw, 0, some psmd⟩
    | none => ⟨name, bbox, [], 0, some psmd⟩
  else ⟨name, bbox, b.text, b.conf, some b.psm⟩

/-! ## Preprocessing pipeline and skew correction -/

/-- Grayscale conversion, skipped for single-channel input. -/
def grayOf {Img : Type} (e : OcrEnv Img) (img : Img) : Img :=
  if e.isColor img then e.toGray img else img

/-- The image handed to `deskew_image` by `advanced_preprocess`:
grayscale, contrast-enhanced, denoised. -/
def deskewInput {Img : Type} (e : OcrEnv Img) (img : Img) : Img :=
  e.denoise (e.clahe (grayOf e img))

/-- Normalization of the `minAreaRect` angle into the deskew angle:
`-(90 + a)` below -45, else `-a`. -/
def normAngle (a : ℚ) : ℚ := if a < -45 then -(90 + a) else -a

/-- `deskew_image`: no foreground pixels (no detected angle) or a
normalized angle of magnitude below 0.5 degrees returns the input
unrotated; otherwise rotate by the normalized angle. -/
def deskewImage {Img : Type} (e : OcrEnv Img) (g : Img) : Img × Bool :=
  match e.detectAngle g with
  | none => (g, false)
  | some a0 =>
    let a := normAngle a0
    if |a| < 1/2 then (g, false) else (e.rotate g a, true)

/-- `advanced_preprocess`: the fixed transform sequence with its
`steps_applied` bookkeeping. -/
def advancedPreprocess {Img : Type} (e : OcrEnv Img) (img : Img) :
    Img × List String :=
  let s0 := if e.isColor img then ["grayscale"] else []
  let dk := deskewImage e (deskewInput e img)
  let s1 := s0 ++ ["clahe", "denoise"] ++ (if dk.2 then ["deskew"] else [])
  (e.unsharp (e.upscale (e.morphology (e.adaptiveThresh dk.1))),
   s1 ++ ["adaptive_threshold", "morphology", "upscale_2x", "unsharp_mask"])

/-- `_generate_preprocess_variants`: the six named preprocessing
recipes, in source order. -/
def generateVariants {Img : Type} (e : OcrEnv Img) (img : Img) :
    List (Img × String) :=
  let gray := grayOf e img
  let v1 := (advancedPreprocess e img).1
  [(v1, "clahe_denoise_adaptiveth"),
   (e.bilateralMean gray, "bilateral_adaptiveth_mean"),
   (e.gaussOtsu gray, "gauss_otsu"),
   (e.invert v1, "inverted"),
   (e.normOtsu gray, "normalized_otsu"),
   (e.aggressiveDenoise gray, "aggressive_denoise_close")]

/-! ## `detect_form_regions` -/

/-- The size filter: skip boxes below 50x20 or wider than 80% of the
page or taller than 50% of the page. -/
def sizeSkip (h w : Nat) (b : Box) : Bool :=
  b.2.2.1 < 50 || b.2.2.2 < 20 ||
    decide ((b.2.2.1 : ℚ) > (w : ℚ) * (4/5)) ||
    decide ((b.2.2.2 : ℚ) > (h : ℚ) * (1/2))

/-- Positional/probe classification of one surviving contour box. -/
def classifyContour {Img : Type} (e : OcrEnv Img) (img : Img) (h : Nat)
    (b : Box) : String :=
  if (b.2.1 : ℚ) < (h : ℚ) * (3/10) then
    let q := lowerStr (e.probe (e.crop img b))
    if containsSub "name".data q then "patient_name"
    else if containsSub "insurance".data q then "insurance"
    else "header"
  else if (b.2.1 : ℚ) < (h : ℚ) * (3/5) then
    let q := lowerStr (e.probe (e.crop img b))
    if containsSub "cpt".data q then "procedure" else "body"
  else "footer"

/-- `detect_form_regions`: filter contour boxes by the size filter,
classify the survivors in discovery order, and append the synthetic
`full_document` region covering the whole page. -/
def detectFormRegions {Img : Type} (e : OcrEnv Img) (img : Img) :
    List (String × Box) :=
  let s := e.shape img
  ((e.contours img).filterMap (fun b =>
    if sizeSkip s.1 s.2 b then none
    else some (classifyContour e img s.1 b, b)))
  ++ [("full_document", (0, 0, s.2, s.1))]

/-! ## Page assembly (`process_image`) -/

/-- `validate_and_correct_text` reading its collaborators from the
environment; the region name is optional exactly as in the source. -/
def validateText {Img : Type} (e : OcrEnv Img) (t : List Char)
    (region : Option String) : List Char :=
  validateAndCorrectText e.closeMatch e.currentYear t (region.map String.data)

/-- One region of the per-region loop: crop, transcribe, then apply
validation/correction to the text. -/
def regionResultAt {Img : Type} (e : OcrEnv Img) (pimg : Img)
    (p : String × Box) : RegionResult :=
  let r := tessOcrRegion e (e.crop pimg p.2) p.1 p.2
  { r with text := validateText e r.text (some p.1) }

/-- One step of the source's accumulation loop over regions: append the
corrected result; append text and confidence only when the corrected
text is non-blank. -/
def regionsFoldStep {Img : Type} (e : OcrEnv Img) (pimg : Img)
    (acc : List RegionResult × List (List Char) × List ℚ)
    (p : String × Box) : List RegionResult × List (List Char) × List ℚ :=
  let r := regionResultAt e pimg p
  (acc.1 ++ [r],
   if trimL r.text ≠ [] then acc.2.1 ++ [r.text] else acc.2.1,
   if trimL r.text ≠ [] then acc.2.2 ++ [r.confidence] else acc.2.2)

/-- The accumulation loop over all detected regions. -/
def regionsFold {Img : Type} (e : OcrEnv Img) (pimg : Img)
    (rs : List (String × Box)) :
    List RegionResult × List (List Char) × List ℚ :=
  rs.foldl (regionsFoldStep e pimg) ([], [], [])

/-- Pre-escalation page state: corrected region results, combined
(final-validated) transcript, mean confidence and preprocessing steps. -/
structure PrePage where
  results : List RegionResult
  text : List Char
  conf : ℚ
  steps : List String
deriving DecidableEq

/-- The preprocessed page raster. -/
def processedOf {Img : Type} (e : OcrEnv Img) (img : Img) : Img :=
  (advancedPreprocess e img).1

/-- The regions detected on the preprocessed page. -/
def pageRegionsOf {Img : Type} (e : OcrEnv Img) (img : Img) :
    List (String × Box) :=
  detectFormRegions e (processedOf e img)

/-- The accumulated (results, non-blank texts, non-blank confidences)
of the per-region loop. -/
def pageAcc {Img : Type} (e : OcrEnv Img) (img : Img) :
    List RegionResult × List (List Char) × List ℚ :=
  regionsFold e (processedOf e img) (pageRegionsOf e img)

/-- The corrected region results of the page, in detection order. -/
def pageRegionResults {Img : Type} (e : OcrEnv Img) (img : Img) :
    List RegionResult :=
  (pageAcc e img).1

/-- The combined transcript before the final correction pass: the
newline join of the accumulated non-blank text parts. -/
def combinedRaw {Img : Type} (e : OcrEnv Img) (img : Img) : List Char :=
  joinNl (pageAcc e img).2.1

/-- The pre-escalation page confidence. -/
def preConfOf {Img : Type} (e : OcrEnv Img) (img : Img) : ℚ :=
  meanConf (pageAcc e img).2.2

/-- The page pipeline of `process_image` up to (and excluding) variant
escalation: preprocess, detect regions, transcribe and correct each,
join the non-blank texts with newlines, average their confidences, and
apply the final combined-text correction pass. -/
def prePage {Img : Type} (e : OcrEnv Img) (img : Img) : PrePage :=
  let combined := combinedRaw e img
  let combined2 := if trimL combined ≠ [] then validateText e combined none
    else combined
  ⟨pageRegionResults e img, combined2, preConfOf e img,
    (advancedPreprocess e img).2⟩

/-- One variant's full-document transcription, with correction applied
only to non-blank text. -/
def variantResultAt {Img : Type} (e : OcrEnv Img) (p : Img × String) :
    RegionResult :=
  let s := e.shape p.1
  let r := tessOcrRegion e p.1 "full_document" (0, 0, s.2, s.1)
  if trimL r.text ≠ [] then { r with text := validateText e r.text none } else r

/-- One step of the escalation scan: the `best is None or score > best[0]`
update with `score = var_res.confidence`. -/
def variantStep {Img : Type} (e : OcrEnv Img)
    (best : Option (ℚ × String × RegionResult)) (p : Img × String) :
    Option (ℚ × String × RegionResult) :=
  let r := variantResultAt e p
  match best with
  | none => some (r.confidence, p.2, r)
  | some b => if r.confidence > b.1 then some (r.confidence, p.2, r) else best

/-- The escalation scan over all six variants. -/
def variantBest {Img : Type} (e : OcrEnv Img) (img : Img) :
    Option (ℚ × String × RegionResult) :=
  (generateVariants e img).foldl (variantStep e) none

/-- The combined OCR result (`OCRResult` dataclass). -/
structure OCRResult where
  text : List Char
  avg_conf : ℚ
  engine : String
  regions : List RegionResult
  preprocessing_applied : List String
deriving DecidableEq

/-- `process_image` for the Tesseract engine: the pre-escalation page,
then — when the combined text is blank or the confidence is below 20 —
the variant escalation, which replaces transcript, confidence and
region list only when the best variant's confidence strictly exceeds
the pre-escalation confidence. -/
def processImage {Img : Type} (e : OcrEnv Img) (img : Img) : OCRResult :=
  let pre := prePage e img
  let keep : OCRResult := ⟨pre.text, pre.conf, "tesseract", pre.results, pre.steps⟩
  if trimL pre.text = [] ∨ pre.conf < 20 then
    match variantBest e img with
    | some b =>
      if b.1 > pre.conf then
        ⟨b.2.2.text, b.2.2.confidence, "tesseract", [b.2.2],
          pre.steps ++ ["variant:" ++ b.2.1]⟩
      else keep
    | none => keep
  else keep

/-! ## CLI exit codes (`main` and `pdf_to_images`) -/

/-- Outcome of the `run_file` call inside `main`'s `try`: a result with
its text, an exception escaping the pipeline, or the `sys.exit(3)` of
`pdf_to_images` when no PDF rendering backend is available (a
`SystemExit` is not caught by `except Exception`, so it terminates the
process with code 3). -/
inductive RunOutcome
  | ok (text : List Char)
  | exc
  | pdfNoBackend
deriving DecidableEq

/-- The exit code of `main`: 1 when the input file does not exist, 3
when PDF rendering is unavailable, 2 on an unhandled processing
exception, 4 when `--fail-on-empty` is set and the result text is
blank, 2 when JSON serialization fails, otherwise 0. -/
def mainExit (fileExists failOnEmpty : Bool) (out : RunOutcome)
    (serializeOk : Bool) : Nat :=
  if !fileExists then 1
  else
    match out with
    | .pdfNoBackend => 3
    | .exc => 2
    | .ok t =>
      if failOnEmpty ∧ trimL t = [] then 4
      else if serializeOk then 0 else 2

/-- Unfolding of `validate_and_correct_text` for a non-empty text with
no region name: only the medical-term pass and the CPT pass can apply. -/
lemma validate_none (cm : List Char → Option (List Char)) (cy : Nat)
    (t : List Char) (h : t ≠ []) :
    validateAndCorrectText cm cy t none =
      (if cptCond none (applyMedical t) then correctCptCode (applyMedical t)
       else applyMedical t) := by
  simp [validateAndCorrectText, h, dateCond]

/-! ## Claim C7: homoglyph correction -/

/-- C7: the procedure-code pass uses exactly the fixed homoglyph table
O→0, o→0, I→1, l→1, i→1, S→5, s→5, B→8, G→6; the token `"O58O6"`
adjacent to a procedure-code label normalizes to `"05806"`; and a
4-digit result in procedure-code context is zero-padded to 5 digits by
prepending `'0'` (whatever the insurance close-match oracle and the
current year are). -/
theorem C7_homoglyph :
    (corrChar 'O' = '0' ∧ corrChar 'o' = '0' ∧ corrChar 'I' = '1' ∧
     corrChar 'l' = '1' ∧ corrChar 'i' = '1' ∧ corrChar 'S' = '5' ∧
     corrChar 's' = '5' ∧ corrChar 'B' = '8' ∧ corrChar 'G' = '6') ∧
    (∀ (cm : List Char → Option (List Char)) (cy : Nat),
      validateAndCorrectText cm cy "CPT: O58O6".data none = "CPT: 05806".data) ∧
    (∀ (cm : List Char → Option (List Char)) (cy : Nat),
      validateAndCorrectText cm cy "CPT: 5806".data none = "CPT: 05806".data) := by
  refine ⟨by decide, fun cm cy => ?_, fun cm cy => ?_⟩ <;>
    rw [validate_none _ _ _ (by decide)] <;> decide

/-! ## Claim C8: date validation -/

/-- C8: `"13/45/1980"` is returned unchanged for every pivot year;
`"03/15/25"` normalizes to the 4-digit-year form `"03/15/2025"` under
pivot year 2025; and, in general, whenever the matched date fails range
validation (after 2-digit-year pivot expansion) the text is returned
unmodified, as it is when no date pattern matches at all. -/
theorem C8_dates :
    (∀ cy : Nat, correctDate "13/45/1980".data cy = "13/45/1980".data) ∧
    (correctDate "03/15/25".data 2025 = "03/15/2025".data) ∧
    (∀ (t : List Char) (cy : Nat) (g : List Char × List Char × List Char),
      dateSearch t = some g →
      dateValid (digitsToNat g.1) (digitsToNat g.2.1)
        (digitsToNat (expandYear g.2.2 cy)) = false →
      correctDate t cy = t) ∧
    (∀ (t : List Char) (cy : Nat), dateSearch t = none → correctDate t cy = t) := by
  refine ⟨fun cy => rfl, rfl, fun t cy g hs hv => ?_, fun t cy hs => ?_⟩
  · simp [correctDate, hs, hv]
  · simp [correctDate, hs]

/-- C8 witness: the general rejection clauses applied at the concrete
invalid input `"13/45/1980"` with pivot year 7 and at a match-free
text. -/
theorem C8_dates_witness :
    correctDate "13/45/1980".data 7 = "13/45/1980".data ∧
    correctDate "no date here".data 7 = "no date here".data :=
  ⟨C8_dates.2.2.1 "13/45/1980".data 7 ("13".data, "45".data, "1980".data)
      (by decide) (by decide),
   C8_dates.2.2.2 "no date here".data 7 (by decide)⟩

/-! ## Claim C10: global zero-padding of 4-digit tokens -/

/-- C10: in procedure-label context, each selected standalone 4-digit
token (one whose cleaned form is exactly four digits and contains no
five-digit run) is processed by replacing every occurrence of that
token string in the current text with the token prefixed by `'0'`;
concretely, in a text containing "cpt", the 4-digit year inside
`03/15/1980` becomes `01980`, and the replacement also rewrites
occurrences of the token string outside the matched position
(`X1980` becomes `X01980`). -/
theorem C10_pad4 :
    (∀ tok cur : List Char, search5 (cleanToken tok) = none →
      is4Digits (cleanToken tok) = true →
      cptStep true tok cur = replaceAll tok ('0' :: cleanToken tok) cur) ∧
    (∀ (cm : List Char → Option (List Char)) (cy : Nat),
      validateAndCorrectText cm cy "cpt 03/15/1980".data none =
        "cpt 03/15/01980".data) ∧
    (∀ (cm : List Char → Option (List Char)) (cy : Nat),
      validateAndCorrectText cm cy "cpt 1980 X1980".data none =
        "cpt 01980 X01980".data) := by
  refine ⟨fun tok cur h5 h4 => ?_, fun cm cy => ?_, fun cm cy => ?_⟩
  · simp [cptStep, h5, h4]
  · rw [validate_none _ _ _ (by decide)]; decide
  · rw [validate_none _ _ _ (by decide)]; decide

/-- C10 witness: the step clause applied at the concrete token `"1980"`
inside the date of a procedure-labelled text. -/
theorem C10_pad4_witness :
    cptStep true "1980".data "cpt 03/15/1980".data =
      replaceAll "1980".data "01980".data "cpt 03/15/1980".data :=
  C10_pad4.1 "1980".data "cpt 03/15/1980".data (by decide) (by decide)


/-! ## Claim C3: deskew idempotence -/

/-- C3: when the detected (normalized) skew angle of the image handed
to the deskew step has magnitude below half a degree, `deskew_image`
returns that image unchanged with no rotation flag, and "deskew" does
not appear in the pipeline's `steps_applied`. -/
theorem C3_deskew {Img : Type} (e : OcrEnv Img) (img : Img)
    (h : ∀ a, e.detectAngle (deskewInput e img) = some a → |normAngle a| < 1/2) :
    deskewImage e (deskewInput e img) = (deskewInput e img, false) ∧
    "deskew" ∉ (advancedPreprocess e img).2 := by
  have hd : deskewImage e (deskewInput e img) = (deskewInput e img, false) := by
    unfold deskewImage
    cases hA : e.detectAngle (deskewInput e img) with
    | none => rfl
    | some a =>
      simp only [hA]
      rw [if_pos (h a hA)]
  refine ⟨hd, ?_⟩
  unfold advancedPreprocess
  rw [hd]
  by_cases hc : e.isColor img <;> simp [hc]

/-! ## Claim C4: output assembly -/

/-- The per-region accumulation loop appends, to any starting
accumulator, the corrected results in detection order, the texts of the
non-blank results, and the confidences of the non-blank results. -/
lemma regionsFold_go {Img : Type} (e : OcrEnv Img) (pimg : Img) :
    ∀ (rs : List (String × Box))
      (acc : List RegionResult × List (List Char) × List ℚ),
      rs.foldl (regionsFoldStep e pimg) acc =
        (acc.1 ++ rs.map (regionResultAt e pimg),
         acc.2.1 ++ ((rs.map (regionResultAt e pimg)).filter
           (fun r => trimL r.text ≠ [])).map (fun r => r.text),
         acc.2.2 ++ ((rs.map (regionResultAt e pimg)).filter
           (fun r => trimL r.text ≠ [])).map (fun r => r.confidence)) := by
  intro rs
  induction rs with
  | nil => intro acc; simp
  | cons p rest ih =>
    intro acc
    rw [List.foldl_cons, ih]
    by_cases h : trimL (regionResultAt e pimg p).text = [] <;>
      simp [regionsFoldStep, h, List.filter_cons]

/-- The page accumulator, described declaratively. -/
lemma pageAcc_eq {Img : Type} (e : OcrEnv Img) (img : Img) :
    pageAcc e img =
      ((pageRegionsOf e img).map (regionResultAt e (processedOf e img)),
       (((pageRegionsOf e img).map (regionResultAt e (processedOf e img))).filter
         (fun r => trimL r.text ≠ [])).map (fun r => r.text),
       (((pageRegionsOf e img).map (regionResultAt e (processedOf e img))).filter
         (fun r => trimL r.text ≠ [])).map (fun r => r.confidence)) := by
  have h := regionsFold_go e (processedOf e img) (pageRegionsOf e img) ([], [], [])
  simpa [pageAcc, regionsFold] using h

/-- C4: the combined transcript is exactly the newline-join of the
non-blank corrected region texts in detection order, and the
pre-escalation page confidence is the arithmetic mean of the
confidences of the non-blank regions only (0 when every region text is
blank; blank regions are excluded, not counted as zero). -/
theorem C4_assembler {Img : Type} (e : OcrEnv Img) (img : Img) :
    combinedRaw e img =
      joinNl (((pageRegionResults e img).filter
        (fun r => trimL r.text ≠ [])).map (fun r => r.text)) ∧
    preConfOf e img =
      (if ((pageRegionResults e img).filter (fun r => trimL r.text ≠ [])) = []
       then 0
       else (((pageRegionResults e img).filter
           (fun r => trimL r.text ≠ [])).map (fun r => r.confidence)).sum /
         (((pageRegionResults e img).filter
           (fun r => trimL r.text ≠ [])).length : ℚ)) := by
  have h := pageAcc_eq e img
  constructor
  · simp only [combinedRaw, pageRegionResults, h]
  · simp only [preConfOf, pageRegionResults, h, meanConf]
    by_cases hf : (((pageRegionsOf e img).map
        (regionResultAt e (processedOf e img))).filter
        (fun r => trimL r.text ≠ [])) = []
    · rw [hf]; simp
    · rw [if_neg (by simpa [List.map_eq_nil_iff] using hf), if_neg hf,
        List.length_map]

/-! ## Claim C6: region list shape and order -/

/-- The two transcription exits of `_tesseract_ocr_region` both carry
the requested region name and bounding box. -/
lemma tessOcrRegion_name_bbox {Img : Type} (e : OcrEnv Img) (img : Img)
    (name : String) (bbox : Box) :
    (tessOcrRegion e img name bbox).region_name = name ∧
    (tessOcrRegion e img name bbox).bbox = bbox := by
  unfold tessOcrRegion
  by_cases h : (selectBest (psmFor name) (tessAttempts e img name)).conf ≤ 0 <;>
    simp [h]
  cases e.imageToString img <;> simp

/-- The corrected region result carries the detected name and box. -/
lemma regionResultAt_name_bbox {Img : Type} (e : OcrEnv Img) (pimg : Img)
    (p : String × Box) :
    (regionResultAt e pimg p).region_name = p.1 ∧
    (regionResultAt e pimg p).bbox = p.2 := by
  unfold regionResultAt
  exact tessOcrRegion_name_bbox e (e.crop pimg p.2) p.1 p.2

/-- C6: the detected region list always ends with the synthetic
`full_document` region covering the whole page; every other region's
box passes the size filter (width in [50, 80% of page width], height in
[20, 50% of page height]); and the page's region results preserve the
detection order and identity of the regions (so the transcript, which
joins them in this order, follows detection order). -/
theorem C6_regions {Img : Type} (e : OcrEnv Img) (img : Img) :
    (pageRegionsOf e img).getLast? =
      some ("full_document",
        (0, 0, (e.shape (processedOf e img)).2, (e.shape (processedOf e img)).1)) ∧
    (∀ p ∈ (pageRegionsOf e img).dropLast,
        50 ≤ p.2.2.2.1 ∧ 20 ≤ p.2.2.2.2 ∧
        (p.2.2.2.1 : ℚ) ≤ ((e.shape (processedOf e img)).2 : ℚ) * (4/5) ∧
        (p.2.2.2.2 : ℚ) ≤ ((e.shape (processedOf e img)).1 : ℚ) * (1/2)) ∧
    (pageRegionResults e img).map (fun r => (r.region_name, r.bbox)) =
      pageRegionsOf e img := by
  refine ⟨?_, ?_, ?_⟩
  · rw [pageRegionsOf, detectFormRegions, List.getLast?_concat]
  · intro p hp
    rw [pageRegionsOf, detectFormRegions, List.dropLast_concat] at hp
    obtain ⟨b, hb, hsome⟩ := List.mem_filterMap.mp hp
    cases hs : sizeSkip (e.shape (processedOf e img)).1
        (e.shape (processedOf e img)).2 b with
    | true => simp [hs] at hsome
    | false =>
      simp only [hs, Bool.false_eq_true, if_false, Option.some.injEq] at hsome
      simp only [sizeSkip, Bool.or_eq_false_iff, decide_eq_false_iff_not,
        not_lt] at hs
      obtain ⟨⟨⟨h1, h2⟩, h3⟩, h4⟩ := hs
      subst hsome
      exact ⟨h1, h2, h3, h4⟩
  · rw [pageRegionResults, pageAcc_eq, List.map_map]
    have : ∀ p ∈ pageRegionsOf e img,
        ((fun r => (r.region_name, r.bbox)) ∘ regionResultAt e (processedOf e img)) p = p := by
      intro p _
      have h := regionResultAt_name_bbox e (processedOf e img) p
      simp [Function.comp, h.1, h.2]
    rw [List.map_congr_left this, List.map_id']

/-! ## Concrete pinned environments -/

/-- A pinned environment over the trivial image type: every image
transform is the identity, the page is 100x100 with no contours and no
detected skew, and the engine oracles are the given functions. -/
def unitEnv (rc : Unit → TessCfg → Option (List WordData))
    (its : Option (List Char)) (ang : Option ℚ) : OcrEnv Unit where
  isColor := fun _ => false
  toGray := fun i => i
  clahe := fun i => i
  denoise := fun i => i
  detectAngle := fun _ => ang
  rotate := fun i _ => i
  adaptiveThresh := fun i => i
  morphology := fun i => i
  upscale := fun i => i
  unsharp := fun i => i
  bilateralMean := fun i => i
  gaussOtsu := fun i => i
  invert := fun i => i
  normOtsu := fun i => i
  aggressiveDenoise := fun i => i
  shape := fun _ => (100, 100)
  crop := fun i _ => i
  contours := fun _ => []
  probe := fun _ => []
  runConfig := rc
  imageToString := fun _ => its
  closeMatch := fun _ => none
  currentYear := 2025
  quality := false

/-- A pinned engine that always reads one word "hello" at confidence 90. -/
def envGood : OcrEnv Unit :=
  unitEnv (fun _ _ => some [⟨"hello".data, some 90, 0, 0⟩]) (some []) none

/-- A pinned engine whose every attempt yields the word "ab" with an
unusable (negative) confidence, while the plain fallback invocation
reads "x". -/
def envTie : OcrEnv Unit :=
  unitEnv (fun _ _ => some [⟨"ab".data, some (-1), 0, 0⟩]) (some "x".data) none

/-- A pinned engine on which every invocation raises. -/
def envFail : OcrEnv Unit := unitEnv (fun _ _ => none) none none

/-- A pinned world whose detected skew angle is a quarter of a degree. -/
def envTilt : OcrEnv Unit := unitEnv (fun _ _ => none) none (some (1/4))

/-! ## Selection-fold invariants (`_tesseract_ocr_region` scan) -/

/-- The scan never decreases the best confidence and, when it leaves
the confidence unchanged, never shortens the best text. -/
lemma selFold_mono (atts : List (List Char × ℚ × Nat)) :
    ∀ s : SelState, s.conf ≤ (atts.foldl selStep s).conf ∧
      ((atts.foldl selStep s).conf = s.conf →
        s.text.length ≤ (atts.foldl selStep s).text.length) := by
  induction atts with
  | nil => intro s; exact ⟨le_refl _, fun _ => le_refl _⟩
  | cons a rest ih =>
    intro s
    rw [List.foldl_cons]
    have hstep : s.conf ≤ (selStep s a).conf ∧
        ((selStep s a).conf = s.conf →
          s.text.length ≤ (selStep s a).text.length) := by
      unfold selStep
      split
      · rename_i hcond
        rcases hcond with h | ⟨h1, h2⟩
        · exact ⟨le_of_lt h, fun he => absurd he (ne_of_gt h)⟩
        · exact ⟨le_of_eq h1.symm, fun _ => le_of_lt h2⟩
      · exact ⟨le_refl _, fun _ => le_refl _⟩
    obtain ⟨hm, hl⟩ := ih (selStep s a)
    refine ⟨le_trans hstep.1 hm, fun he => ?_⟩
    have h1 : (selStep s a).conf = s.conf :=
      le_antisymm (he ▸ hm) hstep.1
    exact le_trans (hstep.2 h1) (hl (he.trans h1.symm))

/-- Every attempt's average confidence is bounded by the scan result. -/
lemma selFold_ub (atts : List (List Char × ℚ × Nat)) :
    ∀ s : SelState, ∀ a ∈ atts, a.2.1 ≤ (atts.foldl selStep s).conf := by
  induction atts with
  | nil => intro s a ha; simp at ha
  | cons x rest ih =>
    intro s a ha
    rw [List.foldl_cons]
    rcases List.mem_cons.mp ha with rfl | hmem
    · have h1 : a.2.1 ≤ (selStep s a).conf := by
        unfold selStep
        split
        · exact le_refl _
        · rename_i hcond
          push_neg at hcond
          exact hcond.1
      exact le_trans h1 (selFold_mono rest (selStep s a)).1
    · exact ih (selStep s x) a hmem

/-- The scan result is the initial state or one of the attempts. -/
lemma selFold_mem (atts : List (List Char × ℚ × Nat)) :
    ∀ s : SelState, atts.foldl selStep s = s ∨
      ∃ a ∈ atts, (atts.foldl selStep s).text = a.1 ∧
        (atts.foldl selStep s).conf = a.2.1 ∧
        (atts.foldl selStep s).psm = a.2.2 := by
  induction atts with
  | nil => intro s; exact Or.inl rfl
  | cons x rest ih =>
    intro s
    rw [List.foldl_cons]
    rcases ih (selStep s x) with heq | ⟨a, ha, h1, h2, h3⟩
    · rw [heq]
      unfold selStep
      split
      · exact Or.inr ⟨x, List.mem_cons_self x rest, rfl, rfl, rfl⟩
      · exact Or.inl rfl
    · exact Or.inr ⟨a, List.mem_cons_of_mem x ha, h1, h2, h3⟩

/-- At the final confidence, no attempt has a longer text than the
scan result. -/
lemma selFold_maxlen (atts : List (List Char × ℚ × Nat)) :
    ∀ s : SelState, ∀ a ∈ atts,
      a.2.1 = (atts.foldl selStep s).conf →
      a.1.length ≤ (atts.foldl selStep s).text.length := by
  induction atts with
  | nil => intro s a ha; simp at ha
  | cons x rest ih =>
    intro s a ha he
    rw [List.foldl_cons] at he ⊢
    rcases List.mem_cons.mp ha with rfl | hmem
    · by_cases hrep : a.2.1 > s.conf ∨
          (a.2.1 = s.conf ∧ a.1.length > s.text.length)
      · have hs' : selStep s a = ⟨a.1, a.2.1, a.2.2⟩ := if_pos hrep
        rw [hs'] at he ⊢
        exact (selFold_mono rest ⟨a.1, a.2.1, a.2.2⟩).2 he.symm
      · have hs' : selStep s a = s := if_neg hrep
        rw [hs'] at he ⊢
        push_neg at hrep
        have hm := selFold_mono rest s
        have hsc : s.conf = (rest.foldl selStep s).conf :=
          le_antisymm hm.1 (he ▸ hrep.1)
        exact le_trans (hrep.2 (he.trans hsc.symm)) (hm.2 hsc.symm)
    · exact ih (selStep s x) a hmem he

/-- Normalized word confidences are nonnegative. -/
lemma wordConf_nonneg (c : Option ℚ) : 0 ≤ wordConf c := by
  cases c with
  | none => exact le_refl 0
  | some v =>
    show (0 : ℚ) ≤ if v < 0 then 0 else v
    by_cases h : v < 0
    · rw [if_pos h]
    · rw [if_neg h]; exact le_of_not_lt h

/-- The mean of nonnegative confidences is nonnegative. -/
lemma meanConf_nonneg (cs : List ℚ) (h : ∀ x ∈ cs, 0 ≤ x) : 0 ≤ meanConf cs := by
  unfold meanConf
  split
  · exact le_refl 0
  · exact div_nonneg (List.sum_nonneg h) (by positivity)

/-- Every attempt's average confidence is nonnegative. -/
lemma attemptAvg_nonneg (ws : List WordData) : 0 ≤ attemptAvg ws := by
  unfold attemptAvg
  refine meanConf_nonneg _ (fun x hx => ?_)
  obtain ⟨w, _, rfl⟩ := List.mem_map.mp hx
  exact wordConf_nonneg w.conf

/-- Every successful attempt of the configuration matrix has a
nonnegative average confidence. -/
lemma tessAttempts_avg_nonneg {Img : Type} (e : OcrEnv Img) (img : Img)
    (name : String) : ∀ a ∈ tessAttempts e img name, 0 ≤ a.2.1 := by
  intro a ha
  obtain ⟨cfg, _, hmap⟩ := List.mem_filterMap.mp ha
  cases hrc : e.runConfig img cfg with
  | none => rw [hrc] at hmap; simp at hmap
  | some ws =>
    rw [hrc] at hmap
    simp only [Option.map_some', Option.some.injEq] at hmap
    subst hmap
    exact attemptAvg_nonneg ws

/-! ## Evaluation helpers for pinned constant engines -/

/-- A `filterMap` that always succeeds is a `map`. -/
lemma filterMap_all_some {α β : Type} (f : α → Option β) (g : α → β)
    (l : List α) (h : ∀ x ∈ l, f x = some (g x)) : l.filterMap f = l.map g := by
  induction l with
  | nil => rfl
  | cons a rest ih =>
    rw [List.filterMap_cons, h a (List.mem_cons_self a rest), List.map_cons,
      ih (fun x hx => h x (List.mem_cons_of_mem a hx))]

/-- The attempts of an engine that answers every configuration with the
same data. -/
lemma tessAttempts_const {Img : Type} (e : OcrEnv Img) (img : Img)
    (name : String) (D : List WordData)
    (h : ∀ cfg, e.runConfig img cfg = some D) :
    tessAttempts e img name =
      (configsFor name e.quality).map
        (fun cfg => (attemptText D, attemptAvg D, cfg.psm)) := by
  unfold tessAttempts
  exact filterMap_all_some _ _ _ (fun cfg _ => by rw [h cfg]; rfl)

/-- Mean of a single confidence. -/
lemma meanConf_single (x : ℚ) : meanConf [x] = x := by
  simp [meanConf]

/-- Average of a single kept word. -/
lemma attemptAvg_single (w : WordData) (h : trimL w.txt ≠ []) :
    attemptAvg [w] = wordConf w.conf := by
  simp [attemptAvg, List.filter_cons, h, meanConf]

/-- The scan ignores attempts that replicate the current best text and
confidence. -/
lemma selFold_constant (t : List Char) (v : ℚ)
    (l : List (List Char × ℚ × Nat)) (hall : ∀ a ∈ l, a.1 = t ∧ a.2.1 = v) :
    ∀ s : SelState, s.text = t → s.conf = v → l.foldl selStep s = s := by
  induction l with
  | nil => intro s _ _; rfl
  | cons a rest ih =>
    intro s h1 h2
    rw [List.foldl_cons]
    have ha := hall a (List.mem_cons_self a rest)
    have hstep : selStep s a = s := by
      refine if_neg ?_
      rw [ha.1, ha.2, h1, h2]
      simp [lt_irrefl]
    rw [hstep]
    exact ih (fun a' ha' => hall a' (List.mem_cons_of_mem a ha')) s h1 h2

/-- The scan over constant attempts keeps the first attempt. -/
lemma selectBest_mapConst (t : List Char) (v : ℚ) (psmd : Nat)
    (cfgs : List TessCfg) (hne : cfgs ≠ []) (hv : -1 < v) :
    ∃ p : Nat, selectBest psmd (cfgs.map (fun cfg => (t, v, cfg.psm))) =
      ⟨t, v, p⟩ := by
  cases cfgs with
  | nil => exact absurd rfl hne
  | cons c0 rest =>
    refine ⟨c0.psm, ?_⟩
    unfold selectBest
    rw [List.map_cons, List.foldl_cons]
    have h1 : selStep ⟨[], -1, psmd⟩ (t, v, c0.psm) = ⟨t, v, c0.psm⟩ :=
      if_pos (Or.inl hv)
    rw [h1]
    refine selFold_constant t v _ ?_ _ rfl rfl
    intro a ha
    obtain ⟨cfg, _, rfl⟩ := List.mem_map.mp ha
    exact ⟨rfl, rfl⟩

/-- Unfolding of the region search once the scan state is known. -/
lemma tessOcrRegion_eq_of {Img : Type} (e : OcrEnv Img) (img : Img)
    (name : String) (bbox : Box) (t : List Char) (v : ℚ) (p : Nat)
    (hb : selectBest (psmFor name) (tessAttempts e img name) = ⟨t, v, p⟩) :
    tessOcrRegion e img name bbox =
      if v ≤ 0 then
        (match e.imageToString img with
         | some raw => ⟨name, bbox, trimL raw, 0, some (psmFor name)⟩
         | none => ⟨name, bbox, [], 0, some (psmFor name)⟩)
      else ⟨name, bbox, t, v, some p⟩ := by
  simp only [tessOcrRegion, hb]

/-! ## Claim C1: best-attempt selection -/

/-- C1 counterexample: an engine whose every configuration returns the
text "ab" with (normalized) average confidence 0 — so the selection
rule of the claim demands the returned text be "ab" — while the code's
zero-confidence fallback path returns the plain invocation's text "x"
instead. -/
theorem C1_counterexample :
    tessAttempts envTie () "header" ≠ [] ∧
    (∀ a ∈ tessAttempts envTie () "header", a.1 = "ab".data ∧ a.2.1 = 0) ∧
    (tessOcrRegion envTie () "header" (0, 0, 1, 1)).text = "x".data ∧
    (tessOcrRegion envTie () "header" (0, 0, 1, 1)).text ≠ "ab".data := by
  have hD : attemptAvg [⟨"ab".data, some (-1), 0, 0⟩] = 0 := by
    rw [attemptAvg_single _ (by decide)]
    norm_num [wordConf]
  have hT : attemptText [⟨"ab".data, some (-1), 0, 0⟩] = "ab".data := by decide
  have hatts := tessAttempts_const envTie () "header" _ (fun cfg => rfl)
  rw [hT, hD] at hatts
  have hq : envTie.quality = false := rfl
  rw [hq] at hatts
  obtain ⟨p, hsel⟩ := selectBest_mapConst "ab".data 0 (psmFor "header")
    (configsFor "header" false) (by decide) (by norm_num)
  rw [← hatts] at hsel
  have hreg := tessOcrRegion_eq_of envTie () "header" (0, 0, 1, 1) _ _ _ hsel
  rw [if_pos (le_refl (0 : ℚ))] at hreg
  refine ⟨?_, ?_, ?_, ?_⟩
  · rw [hatts]
    simp only [ne_eq, List.map_eq_nil_iff]
    decide
  · rw [hatts]
    intro a ha
    obtain ⟨cfg, _, rfl⟩ := List.mem_map.mp ha
    exact ⟨rfl, rfl⟩
  · rw [hreg]
    decide
  · rw [hreg]
    decide

/-- C1 (amended): the returned region confidence always equals the
maximum average per-token confidence over the successful attempts
(never less) — every attempt is bounded by it and some attempt reaches
it — and, whenever that maximum is positive (so the zero-confidence
fallback is not taken), the returned text is the text of a
maximum-confidence attempt and no maximum-confidence attempt has a
longer text. -/
theorem C1_search {Img : Type} (e : OcrEnv Img) (img : Img) (name : String)
    (bbox : Box) (hne : tessAttempts e img name ≠ []) :
    (∀ a ∈ tessAttempts e img name,
        a.2.1 ≤ (tessOcrRegion e img name bbox).confidence) ∧
    (∃ a ∈ tessAttempts e img name,
        a.2.1 = (tessOcrRegion e img name bbox).confidence) ∧
    (0 < (tessOcrRegion e img name bbox).confidence →
      (∃ a ∈ tessAttempts e img name,
          a.1 = (tessOcrRegion e img name bbox).text ∧
          a.2.1 = (tessOcrRegion e img name bbox).confidence) ∧
      (∀ a ∈ tessAttempts e img name,
          a.2.1 = (tessOcrRegion e img name bbox).confidence →
          a.1.length ≤ (tessOcrRegion e img name bbox).text.length)) := by
  by_cases hle : (selectBest (psmFor name) (tessAttempts e img name)).conf ≤ 0
  · have hconf : (tessOcrRegion e img name bbox).confidence = 0 := by
      simp only [tessOcrRegion]
      rw [if_pos hle]
      cases e.imageToString img <;> rfl
    have hub : ∀ a ∈ tessAttempts e img name,
        a.2.1 ≤ (selectBest (psmFor name) (tessAttempts e img name)).conf :=
      fun a ha => selFold_ub _ _ a ha
    have hz : ∀ a ∈ tessAttempts e img name, a.2.1 = 0 := fun a ha =>
      le_antisymm (le_trans (hub a ha) hle)
        (tessAttempts_avg_nonneg e img name a ha)
    obtain ⟨a0, ha0⟩ := List.exists_mem_of_ne_nil _ hne
    refine ⟨fun a ha => ?_, ⟨a0, ha0, ?_⟩, fun hpos => ?_⟩
    · rw [hconf]; exact le_of_eq (hz a ha)
    · rw [hconf, hz a0 ha0]
    · rw [hconf] at hpos; exact absurd hpos (lt_irrefl 0)
  · have hres : tessOcrRegion e img name bbox =
        ⟨name, bbox, (selectBest (psmFor name) (tessAttempts e img name)).text,
          (selectBest (psmFor name) (tessAttempts e img name)).conf,
          some (selectBest (psmFor name) (tessAttempts e img name)).psm⟩ := by
      simp only [tessOcrRegion]
      rw [if_neg hle]
    rcases selFold_mem (tessAttempts e img name) ⟨[], -1, psmFor name⟩ with
      heq | ⟨a, ha, h1, h2, h3⟩
    · exfalso
      apply hle
      have hc : (selectBest (psmFor name) (tessAttempts e img name)).conf =
          (-1 : ℚ) := congrArg SelState.conf heq
      rw [hc]
      norm_num
    · refine ⟨fun a' ha' => ?_, ⟨a, ha, ?_⟩, fun _ => ⟨⟨a, ha, ?_, ?_⟩, ?_⟩⟩
      · rw [hres]; exact selFold_ub _ _ a' ha'
      · rw [hres]; exact h2.symm
      · rw [hres]; exact h1.symm
      · rw [hres]; exact h2.symm
      · intro a' ha' he
        rw [hres] at he ⊢
        exact selFold_maxlen _ _ a' ha' he

/-- C1 witness: the amended selection theorem applied to a pinned
engine whose attempts read "hello" at confidence 90. -/
theorem C1_search_witness :
    tessAttempts envGood () "header" ≠ [] ∧
    (∀ a ∈ tessAttempts envGood () "header",
        a.2.1 ≤ (tessOcrRegion envGood () "header" (0, 0, 1, 1)).confidence) ∧
    (0 : ℚ) < (tessOcrRegion envGood () "header" (0, 0, 1, 1)).confidence := by
  have hD : attemptAvg [⟨"hello".data, some 90, 0, 0⟩] = 90 := by
    rw [attemptAvg_single _ (by decide)]
    norm_num [wordConf]
  have hT : attemptText [⟨"hello".data, some 90, 0, 0⟩] = "hello".data := by
    decide
  have hatts := tessAttempts_const envGood () "header" _ (fun cfg => rfl)
  rw [hT, hD] at hatts
  have hq : envGood.quality = false := rfl
  rw [hq] at hatts
  have hne : tessAttempts envGood () "header" ≠ [] := by
    rw [hatts]
    simp only [ne_eq, List.map_eq_nil_iff]
    decide
  obtain ⟨p, hsel⟩ := selectBest_mapConst "hello".data 90 (psmFor "header")
    (configsFor "header" false) (by decide) (by norm_num)
  rw [← hatts] at hsel
  have hreg := tessOcrRegion_eq_of envGood () "header" (0, 0, 1, 1) _ _ _ hsel
  rw [if_neg (by norm_num : ¬(90 : ℚ) ≤ 0)] at hreg
  refine ⟨hne, (C1_search envGood () "header" (0, 0, 1, 1) hne).1, ?_⟩
  rw [hreg]
  norm_num

/-! ## Claim C2: variant escalation -/

/-- The stored best score of the escalation scan always equals the
stored result's confidence. -/
lemma variantFold_inv {Img : Type} (e : OcrEnv Img) :
    ∀ (l : List (Img × String)) (acc : Option (ℚ × String × RegionResult)),
      (∀ b, acc = some b → b.1 = b.2.2.confidence) →
      ∀ b, l.foldl (variantStep e) acc = some b → b.1 = b.2.2.confidence := by
  intro l
  induction l with
  | nil => intro acc hacc b hb; exact hacc b hb
  | cons p rest ih =>
    intro acc hacc b hb
    rw [List.foldl_cons] at hb
    refine ih _ (fun b' hb' => ?_) b hb
    cases acc with
    | none =>
      simp only [variantStep, Option.some.injEq] at hb'
      subst hb'
      rfl
    | some b0 =>
      simp only [variantStep] at hb'
      by_cases hc : (variantResultAt e p).confidence > b0.1
      · rw [if_pos hc] at hb'
        simp only [Option.some.injEq] at hb'
        subst hb'
        rfl
      · rw [if_neg hc] at hb'
        exact hacc b' hb'

/-- The escalation scan starting from a stored candidate stays `some`. -/
lemma variantFold_isSome {Img : Type} (e : OcrEnv Img) :
    ∀ (l : List (Img × String)) (b0 : ℚ × String × RegionResult),
      ∃ b, l.foldl (variantStep e) (some b0) = some b := by
  intro l
  induction l with
  | nil => intro b0; exact ⟨b0, rfl⟩
  | cons p rest ih =>
    intro b0
    rw [List.foldl_cons]
    have hstep : ∃ b1, variantStep e (some b0) p = some b1 := by
      simp only [variantStep]
      by_cases hc : (variantResultAt e p).confidence > b0.1
      · rw [if_pos hc]; exact ⟨_, rfl⟩
      · rw [if_neg hc]; exact ⟨b0, rfl⟩
    obtain ⟨b1, hb1⟩ := hstep
    rw [hb1]
    exact ih b1

/-- With six variants in the menu, the escalation scan always yields a
best candidate. -/
lemma variantBest_isSome {Img : Type} (e : OcrEnv Img) (img : Img) :
    ∃ b, variantBest e img = some b := by
  unfold variantBest generateVariants
  rw [List.foldl_cons]
  exact variantFold_isSome e _ _

/-- C2: the escalated page confidence is never below the
pre-escalation confidence, and whenever the best variant's confidence
does not strictly exceed the pre-escalation confidence the page result
is kept unchanged (transcript, confidence, regions and steps). -/
theorem C2_escalation {Img : Type} (e : OcrEnv Img) (img : Img) :
    (prePage e img).conf ≤ (processImage e img).avg_conf ∧
    (∀ b, variantBest e img = some b → b.1 ≤ (prePage e img).conf →
      processImage e img = ⟨(prePage e img).text, (prePage e img).conf,
        "tesseract", (prePage e img).results, (prePage e img).steps⟩) := by
  have hinv : ∀ b, variantBest e img = some b → b.1 = b.2.2.confidence :=
    variantFold_inv e _ none (fun b hb => by cases hb)
  constructor
  · simp only [processImage]
    split
    · cases hvb : variantBest e img with
      | none => exact le_refl _
      | some b =>
        dsimp only
        by_cases hgt : b.1 > (prePage e img).conf
        · rw [if_pos hgt, ← hinv b hvb]
          exact le_of_lt hgt
        · rw [if_neg hgt]
    · exact le_refl _
  · intro b hvb hle
    simp only [processImage]
    split
    · rw [hvb]
      dsimp only
      rw [if_neg (not_lt.mpr hle)]
    · rfl

/-- C2 witness: the escalation theorem applied to the always-failing
engine, where the best variant scores exactly the pre-escalation
confidence (both 0) and the page result is kept. -/
theorem C2_escalation_witness :
    (prePage envFail ()).conf ≤ (processImage envFail ()).avg_conf ∧
    processImage envFail () = ⟨(prePage envFail ()).text,
      (prePage envFail ()).conf, "tesseract", (prePage envFail ()).results,
      (prePage envFail ()).steps⟩ :=
  ⟨(C2_escalation envFail ()).1,
   (C2_escalation envFail ()).2
     (0, "clahe_denoise_adaptiveth",
       ⟨"full_document", (0, 0, 100, 100), [], 0, some 6⟩)
     (by decide) (by decide)⟩

/-- C3 witness: the deskew theorem applied to the pinned world whose
detected skew angle is a quarter of a degree. -/
theorem C3_deskew_witness :
    deskewImage envTilt (deskewInput envTilt ()) = (deskewInput envTilt (), false) ∧
    "deskew" ∉ (advancedPreprocess envTilt ()).2 := by
  refine C3_deskew envTilt () (fun a ha => ?_)
  have ha' : some (1/4 : ℚ) = some a := ha
  rcases Option.some.inj ha' with rfl
  simp only [normAngle]
  rw [if_neg (by norm_num), abs_neg, abs_of_nonneg (by norm_num)]
  norm_num

/-- C6 witness: the region-list theorem applied to the always-failing
pinned environment (one synthetic region, full 100x100 page). -/
theorem C6_regions_witness :
    (pageRegionsOf envFail ()).getLast? =
      some ("full_document", (0, 0, 100, 100)) ∧
    (∀ p ∈ (pageRegionsOf envFail ()).dropLast,
        50 ≤ p.2.2.2.1 ∧ 20 ≤ p.2.2.2.2 ∧
        (p.2.2.2.1 : ℚ) ≤ (((100 : Nat) : ℚ)) * (4/5) ∧
        (p.2.2.2.2 : ℚ) ≤ (((100 : Nat) : ℚ)) * (1/2)) ∧
    (pageRegionResults envFail ()).map (fun r => (r.region_name, r.bbox)) =
      pageRegionsOf envFail () :=
  C6_regions envFail ()

/-! ## Claim C5: determinism and clock independence -/

/-- The corrector ignores the pivot year whenever the date branch is
not triggered. -/
lemma validate_year (cm : List Char → Option (List Char)) (y1 y2 : Nat)
    (t : List Char) (r : Option (List Char)) (h : dateCond r = false) :
    validateAndCorrectText cm y1 t r = validateAndCorrectText cm y2 t r := by
  simp only [validateAndCorrectText, h, Bool.false_eq_true, if_false]

/-- Region classification never produces a name that triggers the date
branch. -/
lemma classify_noDate {Img : Type} (e : OcrEnv Img) (img : Img) (h : Nat)
    (b : Box) : dateCond (some (classifyContour e img h b).data) = false := by
  unfold classifyContour
  dsimp only
  repeat' split
  all_goals decide

/-- No region name produced by detection triggers the date branch. -/
lemma detect_noDate {Img : Type} (e : OcrEnv Img) (img : Img) :
    ∀ p ∈ detectFormRegions e img, dateCond (some p.1.data) = false := by
  intro p hp
  simp only [detectFormRegions] at hp
  rw [List.mem_append] at hp
  rcases hp with hp | hp
  · obtain ⟨b, _, hsome⟩ := List.mem_filterMap.mp hp
    cases hs : sizeSkip (e.shape img).1 (e.shape img).2 b with
    | true => simp [hs] at hsome
    | false =>
      simp only [hs, Bool.false_eq_true, if_false, Option.some.injEq] at hsome
      rw [← hsome]
      exact classify_noDate e img (e.shape img).1 b
  · simp only [List.mem_singleton] at hp
    rw [hp]
    show dateCond (some "full_document".data) = false
    decide

/-- Pointwise-equal fold steps fold equally. -/
lemma foldl_congr_mem {α β : Type} (f g : β → α → β) (l : List α)
    (h : ∀ a ∈ l, ∀ b, f b a = g b a) : ∀ b, l.foldl f b = l.foldl g b := by
  induction l with
  | nil => intro b; rfl
  | cons a rest ih =>
    intro b
    rw [List.foldl_cons, List.foldl_cons, h a (List.mem_cons_self a rest)]
    exact ih (fun a' ha' b' => h a' (List.mem_cons_of_mem a ha') b') _

/-- A corrected region result for a detected (non-date) region does not
depend on the wall-clock year. -/
lemma regionResultAt_year {Img : Type} (e : OcrEnv Img) (y : Nat) (pimg : Img)
    (p : String × Box) (h : dateCond (some p.1.data) = false) :
    regionResultAt { e with currentYear := y } pimg p =
      regionResultAt e pimg p := by
  simp only [regionResultAt, validateText]
  rw [validate_year e.closeMatch y e.currentYear _ _ (by simpa using h)]
  rfl

/-- The page accumulator does not depend on the wall-clock year. -/
lemma pageAcc_year {Img : Type} (e : OcrEnv Img) (y : Nat) (img : Img) :
    pageAcc { e with currentYear := y } img = pageAcc e img := by
  have h1 : processedOf { e with currentYear := y } img = processedOf e img := rfl
  have h2 : pageRegionsOf { e with currentYear := y } img =
      pageRegionsOf e img := rfl
  show regionsFold { e with currentYear := y }
      (processedOf { e with currentYear := y } img)
      (pageRegionsOf { e with currentYear := y } img) = _
  rw [h1, h2]
  unfold regionsFold
  refine foldl_congr_mem _ _ _ (fun p hp acc => ?_) _
  have hnd : dateCond (some p.1.data) = false :=
    detect_noDate e (processedOf e img) p hp
  simp only [regionsFoldStep, regionResultAt_year e y _ p hnd]

/-- The pre-escalation page does not depend on the wall-clock year. -/
lemma prePage_year {Img : Type} (e : OcrEnv Img) (y : Nat) (img : Img) :
    prePage { e with currentYear := y } img = prePage e img := by
  simp only [prePage, combinedRaw, pageRegionResults, preConfOf,
    pageAcc_year e y img, validateText]
  rw [validate_year e.closeMatch y e.currentYear _ _ (by rfl)]
  rfl

/-- A variant's corrected result does not depend on the wall-clock
year. -/
lemma variantResultAt_year {Img : Type} (e : OcrEnv Img) (y : Nat)
    (p : Img × String) :
    variantResultAt { e with currentYear := y } p = variantResultAt e p := by
  simp only [variantResultAt, validateText]
  rw [validate_year e.closeMatch y e.currentYear _ _ (by rfl)]
  rfl

/-- The escalation scan does not depend on the wall-clock year. -/
lemma variantBest_year {Img : Type} (e : OcrEnv Img) (y : Nat) (img : Img) :
    variantBest { e with currentYear := y } img = variantBest e img := by
  unfold variantBest
  have hv : generateVariants { e with currentYear := y } img =
      generateVariants e img := rfl
  rw [hv]
  refine foldl_congr_mem _ _ _ (fun p _ acc => ?_) _
  simp only [variantStep, variantResultAt_year e y p]

/-- The whole page pipeline does not depend on the wall-clock year. -/
lemma processImage_year {Img : Type} (e : OcrEnv Img) (y : Nat) (img : Img) :
    processImage { e with currentYear := y } img = processImage e img := by
  simp only [processImage, prePage_year e y img, variantBest_year e y img]

/-- C5: with the OCR engine, image transforms and fuzzy matcher pinned
in the environment, the page result is a function of the input image
and that pinned configuration only — in particular it does not depend
on the wall-clock year read by the date corrector (the only ambient
state the pipeline consults), because no region name the pipeline
produces ever triggers the date branch. Hence two runs on identical
input and configuration yield an identical PageResult. -/
theorem C5_determinism {Img : Type} (e : OcrEnv Img) (y1 y2 : Nat) (img : Img) :
    processImage { e with currentYear := y1 } img =
      processImage { e with currentYear := y2 } img :=
  (processImage_year e y1 img).trans (processImage_year e y2 img).symm

/-! ## Claim C9: contained failure and exit codes -/

/-- With an engine that raises on every invocation, the region search
has no successful attempts. -/
lemma tessAttempts_none {Img : Type} (e : OcrEnv Img) (img : Img)
    (name : String) (h : ∀ cfg, e.runConfig img cfg = none) :
    tessAttempts e img name = [] := by
  unfold tessAttempts
  exact List.filterMap_eq_nil_iff.mpr (fun cfg _ => by rw [h cfg]; rfl)

/-- With an engine that raises on every invocation (including the plain
fallback), a region yields the empty text with confidence 0. -/
lemma tessOcrRegion_fail {Img : Type} (e : OcrEnv Img)
    (h1 : ∀ (i : Img) (cfg : TessCfg), e.runConfig i cfg = none)
    (h2 : ∀ i : Img, e.imageToString i = none)
    (img : Img) (name : String) (bbox : Box) :
    tessOcrRegion e img name bbox = ⟨name, bbox, [], 0, some (psmFor name)⟩ := by
  simp only [tessOcrRegion, tessAttempts_none e img name (h1 img), selectBest,
    List.foldl_nil]
  rw [if_pos (by norm_num : ((-1 : ℚ)) ≤ 0), h2 img]

/-- Its corrected counterpart stays empty. -/
lemma regionResultAt_fail {Img : Type} (e : OcrEnv Img)
    (h1 : ∀ (i : Img) (cfg : TessCfg), e.runConfig i cfg = none)
    (h2 : ∀ i : Img, e.imageToString i = none)
    (pimg : Img) (p : String × Box) :
    regionResultAt e pimg p = ⟨p.1, p.2, [], 0, some (psmFor p.1)⟩ := by
  unfold regionResultAt
  rw [tessOcrRegion_fail e h1 h2 (e.crop pimg p.2) p.1 p.2]
  rfl

/-- The pre-escalation page of an always-failing engine: empty
transcript, zero confidence. -/
lemma prePage_fail {Img : Type} (e : OcrEnv Img)
    (h1 : ∀ (i : Img) (cfg : TessCfg), e.runConfig i cfg = none)
    (h2 : ∀ i : Img, e.imageToString i = none) (img : Img) :
    prePage e img = ⟨(pageRegionsOf e img).map
      (fun p => ⟨p.1, p.2, [], 0, some (psmFor p.1)⟩), [], 0,
      (advancedPreprocess e img).2⟩ := by
  have hmap : (pageRegionsOf e img).map (regionResultAt e (processedOf e img)) =
      (pageRegionsOf e img).map
        (fun p => (⟨p.1, p.2, [], 0, some (psmFor p.1)⟩ : RegionResult)) :=
    List.map_congr_left (fun p _ => regionResultAt_fail e h1 h2 _ p)
  have hfil : ((pageRegionsOf e img).map
      (fun p : String × Box =>
        (⟨p.1, p.2, [], 0, some (psmFor p.1)⟩ : RegionResult))).filter
      (fun r => trimL r.text ≠ []) = [] := by
    rw [List.filter_eq_nil_iff]
    intro r hr
    obtain ⟨p, _, rfl⟩ := List.mem_map.mp hr
    simp [trimL]
  simp only [prePage, combinedRaw, pageRegionResults, preConfOf, pageAcc_eq,
    hmap, hfil, List.map_nil]
  rw [show joinNl ([] : List (List Char)) = [] from rfl,
    if_neg (by decide : ¬(trimL ([] : List Char) ≠ [])),
    show meanConf ([] : List ℚ) = 0 from rfl]

/-- Every variant of an always-failing engine yields the empty
full-document result with confidence 0. -/
lemma variantResultAt_fail {Img : Type} (e : OcrEnv Img)
    (h1 : ∀ (i : Img) (cfg : TessCfg), e.runConfig i cfg = none)
    (h2 : ∀ i : Img, e.imageToString i = none) (p : Img × String) :
    variantResultAt e p = ⟨"full_document",
      (0, 0, (e.shape p.1).2, (e.shape p.1).1), [], 0,
      some (psmFor "full_document")⟩ := by
  simp only [variantResultAt]
  rw [tessOcrRegion_fail e h1 h2 p.1 "full_document"
    (0, 0, (e.shape p.1).2, (e.shape p.1).1)]
  simp [trimL]

/-- The escalation scan over variants that all score at most 0 yields a
best candidate scoring at most 0. -/
lemma variantFold_le_zero {Img : Type} (e : OcrEnv Img)
    (hall : ∀ p : Img × String, (variantResultAt e p).confidence ≤ 0) :
    ∀ (l : List (Img × String)) (acc : Option (ℚ × String × RegionResult)),
      (∀ b, acc = some b → b.1 ≤ 0) →
      ∀ b, l.foldl (variantStep e) acc = some b → b.1 ≤ 0 := by
  intro l
  induction l with
  | nil => intro acc hacc b hb; exact hacc b hb
  | cons p rest ih =>
    intro acc hacc b hb
    rw [List.foldl_cons] at hb
    refine ih _ (fun b' hb' => ?_) b hb
    cases acc with
    | none =>
      simp only [variantStep, Option.some.injEq] at hb'
      subst hb'
      exact hall p
    | some b0 =>
      simp only [variantStep] at hb'
      by_cases hc : (variantResultAt e p).confidence > b0.1
      · rw [if_pos hc] at hb'
        simp only [Option.some.injEq] at hb'
        subst hb'
        exact hall p
      · rw [if_neg hc] at hb'
        exact hacc b' hb'

/-- With an always-failing engine, the whole page pipeline returns the
empty transcript with confidence 0 (and keeps the region skeleton). -/
lemma processImage_fail {Img : Type} (e : OcrEnv Img)
    (h1 : ∀ (i : Img) (cfg : TessCfg), e.runConfig i cfg = none)
    (h2 : ∀ i : Img, e.imageToString i = none) (img : Img) :
    processImage e img = ⟨[], 0, "tesseract", (pageRegionsOf e img).map
      (fun p => ⟨p.1, p.2, [], 0, some (psmFor p.1)⟩),
      (advancedPreprocess e img).2⟩ := by
  have hvb : ∀ b, variantBest e img = some b → b.1 ≤ 0 := by
    refine variantFold_le_zero e (fun p => ?_) _ none (fun b hb => by cases hb)
    rw [variantResultAt_fail e h1 h2 p]
  simp only [processImage, prePage_fail e h1 h2 img]
  rw [if_pos (Or.inl (show trimL ([] : List Char) = [] from rfl))]
  cases hb : variantBest e img with
  | none => rfl
  | some b =>
    dsimp only
    rw [if_neg (not_lt.mpr (hvb b hb))]

/-- C9: a page on which no transcription attempt succeeds (every engine
invocation raises, including the plain fallback) yields the empty
transcript with confidence 0 rather than an exception; and the CLI exit
code is 1 when the input file does not exist, 0 on success, 2 on an
unhandled processing exception, 3 when no multi-page rendering backend
is available, and 4 when the result text is blank with fail-on-empty
set. -/
theorem C9_error_paths (Img : Type) :
    (∀ (e : OcrEnv Img) (img : Img),
      (∀ (i : Img) (cfg : TessCfg), e.runConfig i cfg = none) →
      (∀ i : Img, e.imageToString i = none) →
      (processImage e img).text = [] ∧ (processImage e img).avg_conf = 0) ∧
    (∀ (fe : Bool) (o : RunOutcome) (sk : Bool), mainExit false fe o sk = 1) ∧
    (∀ t : List Char, mainExit true false (.ok t) true = 0) ∧
    (∀ t : List Char, trimL t ≠ [] → mainExit true true (.ok t) true = 0) ∧
    (∀ fe sk : Bool, mainExit true fe .exc sk = 2) ∧
    (∀ fe sk : Bool, mainExit true fe .pdfNoBackend sk = 3) ∧
    (∀ (t : List Char) (sk : Bool), trimL t = [] →
      mainExit true true (.ok t) sk = 4) := by
  refine ⟨fun e img h1 h2 => ?_, fun fe o sk => rfl, fun t => rfl,
    fun t ht => ?_, fun fe sk => rfl, fun fe sk => rfl, fun t sk ht => ?_⟩
  · rw [processImage_fail e h1 h2 img]
    exact ⟨rfl, rfl⟩
  · simp [mainExit, ht]
  · simp [mainExit, ht]

/-- C9 witness: the contained-failure clause at the always-failing
pinned engine, and each exit-code clause at concrete arguments. -/
theorem C9_error_paths_witness :
    ((processImage envFail ()).text = [] ∧
      (processImage envFail ()).avg_conf = 0) ∧
    mainExit false false .exc true = 1 ∧
    mainExit true false (.ok "x".data) true = 0 ∧
    mainExit true true (.ok "x".data) true = 0 ∧
    mainExit true false .exc true = 2 ∧
    mainExit true false .pdfNoBackend true = 3 ∧
    mainExit true true (.ok " ".data) true = 4 :=
  ⟨(C9_error_paths Unit).1 envFail () (fun i cfg => rfl) (fun i => rfl),
   (C9_error_paths Unit).2.1 false .exc true,
   (C9_error_paths Unit).2.2.1 "x".data,
   (C9_error_paths Unit).2.2.2.1 "x".data (by decide),
   (C9_error_paths Unit).2.2.2.2.1 false true,
   (C9_error_paths Unit).2.2.2.2.2.1 false true,
   (C9_error_paths Unit).2.2.2.2.2.2 " ".data true (by decide)⟩

end MedOCR

